import Mathlib

/-!
Verification of the SeaFlow in-memory table engine (src/dist/seaflow.js).

The definitions below are a shallow embedding of the table core: row values,
the per-column insert validation loop, the condition-string compiler
(`conditionsTree`), the single-condition matcher (`match`, here `matchCond`
because `match` is a Lean keyword) and the query executor (`get`).  Dynamic
`typeof` checks of the JavaScript source that merely reject ill-typed
arguments are enforced by the Lean types of the corresponding embeddings;
everything else follows the source line by line.  Errors that the source
returns as `OError` values are `OErr` here; exceptions that the source would
throw (strict-mode `ReferenceError` / `TypeError`) are a separate `JsExc`
outcome so that returned error values and thrown exceptions stay
distinguishable.
-/

set_option autoImplicit false

namespace SeaFlow

/-- Error value produced by the source `OError` class: a message and the
numeric error code passed to the constructor. -/
structure OErr where
  message : String
  code : Int
deriving DecidableEq, Repr

/-- An exception thrown by the JavaScript engine (as opposed to an `OErr`
value returned to the caller). -/
inductive JsExc where
  | referenceError (msg : String)
  | typeError (msg : String)
deriving DecidableEq, Repr

/-- A JavaScript value as it can appear in a table row or an insert argument.
Numbers are modelled as rationals together with a separate `nan` value;
IEEE-754 rounding and infinities are not modelled (no claim below depends on
them).  `objLike` stands for any non-primitive value (object, array,
function, null): the insert path rejects all of these alike with error -22
and they are never stored. -/
inductive JsVal where
  | str (s : String)
  | num (q : ℚ)
  | nan
  | bool (b : Bool)
  | undef
  | objLike
deriving DecidableEq, Repr

/-- Line terminators, which the `.` of a JavaScript regex does not match and
which make an unanchored `$` fail (none of the regexes in the source carry
the multiline flag). -/
def isLineTerm (c : Char) : Bool :=
  c = '\n' || c = '\r' || c = ' ' || c = ' '

/-- First character class `[a-zA-Z]` of the condition regex. -/
def isNameStart (c : Char) : Bool := c.isAlpha

/-- Continuation class `[a-zA-Z0-9_]` of both name regexes. -/
def isNameChar (c : Char) : Bool := c.isAlphanum || c = '_'

/-- Digit test `[0-9]` / `\d`. -/
def isDigitC (c : Char) : Bool := c.isDigit

/-- The white-space characters skipped by `parseFloat` / `parseInt`
(StrWhiteSpace: WhiteSpace and LineTerminator).  The rare non-ASCII Unicode
space separators beyond NBSP/BOM are not listed; no claim exercises them. -/
def isJsWs (c : Char) : Bool :=
  c = ' ' || c = '\t' || c = '\n' || c = '\r' || c = '\x0b' || c = '\x0c' ||
  c = ' ' || c = '﻿' || c = ' ' || c = ' '

/-- Does `s` start with `pat` (JavaScript `String.prototype.startsWith`)? -/
def listStartsWith : List Char → List Char → Bool
  | _, [] => true
  | [], _ :: _ => false
  | a :: as, b :: bs => a = b && listStartsWith as bs

/-- Does `s` end with `pat` (JavaScript `String.prototype.endsWith`)? -/
def listEndsWith (s pat : List Char) : Bool :=
  listStartsWith s.reverse pat.reverse

/-- Does `s` contain `pat` as a contiguous substring (JavaScript
`String.prototype.includes`)? -/
def listContainsSub : List Char → List Char → Bool
  | [], pat => pat.isEmpty
  | a :: as, pat => listStartsWith (a :: as) pat || listContainsSub as pat

/-- Lexicographic (code-unit) strict order on strings, the semantics of the
JavaScript `<` / `>` operators when both operands are strings. -/
def lexLt : List Char → List Char → Bool
  | [], [] => false
  | [], _ :: _ => true
  | _ :: _, [] => false
  | a :: as, b :: bs => if a = b then lexLt as bs else decide (a < b)

/-- Split a character list at the first occurrence of `sep` (JavaScript
`indexOf` + `substr` pattern used for `order` entries and time strings). -/
def splitFirst (sep : Char) : List Char → Option (List Char × List Char)
  | [] => none
  | c :: rest =>
    if c = sep then some ([], rest)
    else (splitFirst sep rest).map (fun p => (c :: p.1, p.2))

/-- Value of a digit string (used by the number parsing helpers). -/
def digitsToNat : List Char → Nat → Nat
  | [], acc => acc
  | c :: rest, acc => digitsToNat rest (acc * 10 + (c.toNat - '0'.toNat))

/-- Left-pad a digit string with zeros to the given width. -/
def padZeros (s : String) (n : Nat) : String :=
  String.mk (List.replicate (n - s.length) '0') ++ s

/-- Decimal rendering of a rational number, modelling
`Number.prototype.toString` for the finite decimal values that
`parseFloat` / `parseInt` produce in this code base.  Shortest-round-trip
IEEE-754 formatting is not modelled: values whose denominator is not a
power of ten fall back to a fraction rendering, and no claim below depends
on any rendered number. -/
def ratToString (q : ℚ) : String :=
  let sign := if q < 0 then "-" else ""
  let a := |q|
  if a.den = 1 then sign ++ Nat.repr a.num.toNat
  else
    match (List.range 30).find? (fun k => (a * (10 : ℚ) ^ (k + 1)).den = 1) with
    | some k =>
      let scaled := (a * (10 : ℚ) ^ (k + 1)).num.toNat
      sign ++ Nat.repr (scaled / 10 ^ (k + 1)) ++ "." ++
        padZeros (Nat.repr (scaled % 10 ^ (k + 1))) (k + 1)
    | none => sign ++ Nat.repr a.num.toNat ++ "/" ++ Nat.repr a.den

/-- `toString()` on a stored value, as invoked by the matcher on a row cell.
Calling it on the JS `undefined` (an absent row slot) throws a TypeError. -/
def jsToString : JsVal → Except JsExc String
  | .str s => .ok s
  | .num q => .ok (ratToString q)
  | .nan => .ok "NaN"
  | .bool b => .ok (if b then "true" else "false")
  | .undef => .error (.typeError "Cannot read properties of undefined (reading \x27toString\x27)")
  | .objLike => .ok "[object Object]"

/-- String rendering used inside template-literal error messages
(`${value}`), which stringifies `undefined` instead of throwing. -/
def jsDisplay : JsVal → String
  | .undef => "undefined"
  | v => (jsToString v).toOption.getD ""

/-- JavaScript strict equality `===` on the modelled values.  `NaN === NaN`
is false; two distinct objects are never equal and object identity is not
modelled (`objLike` values are rejected before ever being stored). -/
def jsStrictEq : JsVal → JsVal → Bool
  | .str a, .str b => a = b
  | .num a, .num b => a = b
  | .bool a, .bool b => a = b
  | .undef, .undef => true
  | _, _ => false

/-- ToNumber on a string, for the sort comparator: whitespace-trimmed, empty
means 0, otherwise an optionally signed decimal literal.  Hex and exponent
forms are not modelled; `none` plays the role of NaN.  No claim below
exercises the sort phase, where this is used. -/
def strToNumber (s : String) : Option ℚ :=
  let t := ((s.data.dropWhile isJsWs).reverse.dropWhile isJsWs).reverse
  if t.isEmpty then some 0
  else
    let signed : Bool × List Char :=
      match t with
      | '-' :: r => (true, r)
      | '+' :: r => (false, r)
      | r => (false, r)
    let u := signed.2
    let ip := u.takeWhile isDigitC
    let rest := u.drop ip.length
    let sgn : ℚ := if signed.1 then -1 else 1
    match rest with
    | [] => if ip.isEmpty then none else some (sgn * (digitsToNat ip 0 : ℚ))
    | '.' :: fr =>
      let fp := fr.takeWhile isDigitC
      if !(fr.drop fp.length).isEmpty then none
      else if ip.isEmpty && fp.isEmpty then none
      else some (sgn * ((digitsToNat ip 0 : ℚ) + (digitsToNat fp 0 : ℚ) / 10 ^ fp.length))
    | _ => none

/-- ToNumber on a modelled value (`none` = NaN). -/
def toNumberQ : JsVal → Option ℚ
  | .num q => some q
  | .nan => none
  | .bool b => some (if b then 1 else 0)
  | .undef => none
  | .objLike => none
  | .str s => strToNumber s

/-- The JavaScript `>` comparison as used by the sort phase: string/string
compares code units, anything else goes through ToNumber and is false when
either side is NaN. -/
def jsGT (a b : JsVal) : Bool :=
  match a, b with
  | .str x, .str y => lexLt y.data x.data
  | _, _ =>
    match toNumberQ a, toNumberQ b with
    | some x, some y => decide (y < x)
    | _, _ => false

/-- Does `parseFloat` yield a number (not NaN)?  Per the StrDecimalLiteral
grammar, after skipping whitespace and one optional sign a valid prefix
exists exactly when the rest starts with `Infinity`, with a digit, or with a
dot followed by a digit.  This is the check behind `meta.isValidValue`. -/
def jsParseFloatOk (v : String) : Bool :=
  let t := v.data.dropWhile isJsWs
  let u := match t with
    | '+' :: r => r
    | '-' :: r => r
    | r => r
  listStartsWith u "Infinity".data ||
  (match u with
   | c :: _ => isDigitC c
   | [] => false) ||
  (match u with
   | '.' :: d :: _ => isDigitC d
   | _ => false)

/-- The numeric value of `parseFloat` on an optionally signed decimal
string.  The insert path only applies this to strings already validated by
the number regex `\d+(\.\d+)?`, where this definition agrees with
`parseFloat` exactly (up to the unmodelled IEEE-754 rounding); exponent and
`Infinity` forms are not modelled. -/
def parseFloatQ (v : String) : ℚ :=
  let t := v.data.dropWhile isJsWs
  let signed : Bool × List Char :=
    match t with
    | '+' :: r => (false, r)
    | '-' :: r => (true, r)
    | r => (false, r)
  let u := signed.2
  let ip := u.takeWhile isDigitC
  let fp := match u.drop ip.length with
    | '.' :: r => r.takeWhile isDigitC
    | _ => []
  (if signed.1 then -1 else 1) *
    ((digitsToNat ip 0 : ℚ) + (digitsToNat fp 0 : ℚ) / 10 ^ fp.length)

/-- The numeric value of `parseInt` on an optionally signed digit string.
The insert path only applies this to strings validated by the integer regex
`[0-9]+`, where this agrees with `parseInt`; radix prefixes are not
modelled. -/
def parseIntQ (v : String) : ℚ :=
  let t := v.data.dropWhile isJsWs
  let signed : Bool × List Char :=
    match t with
    | '+' :: r => (false, r)
    | '-' :: r => (true, r)
    | r => (false, r)
  let ip := signed.2.takeWhile isDigitC
  (if signed.1 then -1 else 1) * (digitsToNat ip 0 : ℚ)

/-- `meta.isValidValue` from the source: a quoted string (either quote kind,
checked only at the two ends), a string `parseFloat` accepts, or the literal
`true` / `false`. -/
def isValidValue (v : String) : Bool :=
  (listStartsWith v.data ['"'] && listEndsWith v.data ['"']) ||
  (listStartsWith v.data ['\x27'] && listEndsWith v.data ['\x27']) ||
  jsParseFloatOk v ||
  v = "true" || v = "false"

/-- The schema name regex `[a-zA-Z_][a-zA-Z0-9_]*` anchored on both ends
(`dictionnary.regexp.name`), deciding valid table and key names. -/
def nameOk (s : String) : Bool :=
  match s.data with
  | [] => false
  | c :: rest => (c.isAlpha || c = '_') && rest.all isNameChar

/-- The hour alternative `[01]?\d|2[0-3]` of the time regex. -/
def timeHH (l : List Char) : Bool :=
  match l with
  | [d] => isDigitC d
  | [a, b] => ((a = '0' || a = '1') && isDigitC b) || (a = '2' && '0' ≤ b && b ≤ '3')
  | _ => false

/-- The minute/second alternative `[0-5]?\d` of the time regex. -/
def timeMS (l : List Char) : Bool :=
  match l with
  | [d] => isDigitC d
  | [a, b] => '0' ≤ a && a ≤ '5' && isDigitC b
  | _ => false

/-- A separator accepted by the date regex character class `[\/|\-]`
(slash, pipe or dash). -/
def dateSep (c : Char) : Bool := c = '/' || c = '|' || c = '-'

/-- A character of the first date class `[[0-9]`, which (as written in the
source) also contains the literal `[`. -/
def dateD1 (c : Char) : Bool := c = '[' || isDigitC c

/-- The per-type value checkers `dictionnary.regexp.types`, with JavaScript
regex semantics.  Noteworthy quirks reproduced faithfully: `/^.*$/` fails on
strings containing a line terminator; `/^true|false$/` parses as
`(^true)|(false$)` so it accepts any string starting with `true` or ending
with `false`; the date regex begins with the class `[[0-9]`.  An unknown
type yields false (the source would throw on an unvalidated schema; every
schema reaching insert has been validated). -/
def typeCheck (ty : String) (v : String) : Bool :=
  let l := v.data
  if ty = "text" then l.all (fun c => !isLineTerm c)
  else if ty = "number" then
    let ds := l.takeWhile isDigitC
    !ds.isEmpty &&
      (match l.drop ds.length with
       | [] => true
       | '.' :: r => !r.isEmpty && r.all isDigitC
       | _ => false)
  else if ty = "boolean" then
    listStartsWith l "true".data || listEndsWith l "false".data
  else if ty = "integer" then !l.isEmpty && l.all isDigitC
  else if ty = "time" then
    match splitFirst ':' l with
    | none => timeMS l
    | some (a, r1) =>
      match splitFirst ':' r1 with
      | none => false
      | some (b, c) => timeHH a && timeMS b && timeMS c
  else if ty = "date" then
    match l with
    | [a, b, s1, c, d, s2, e, f, g, h] =>
      dateD1 a && dateD1 b && dateSep s1 && isDigitC c && isDigitC d &&
        dateSep s2 && isDigitC e && isDigitC f && isDigitC g && isDigitC h
    | _ => false
  else false

/-- A table column (a "key" in the source), as produced by a successful
`checkKeyset` validation. -/
structure Key where
  name : String
  type : String
  size : Nat
  unique : Bool
  required : Bool
  attributes : List String
deriving DecidableEq, Repr

/-- The JavaScript expression `x + 1` of the autoincrement branch: numeric
addition for numbers and booleans, concatenation for strings, NaN for an
undefined cell. -/
def jsAddOne : JsVal → JsVal
  | .num q => .num (q + 1)
  | .nan => .nan
  | .str s => .str (s ++ "1")
  | .bool b => .num ((if b then 1 else 0) + 1)
  | .undef => .nan
  | .objLike => .str ("[object Object]" ++ "1")

/-- The string coercion at the top of the insert loop: numbers and booleans
go through `toString`, strings stay, anything else is the error -22 case. -/
def jsPrimToString : JsVal → Option String
  | .str s => some s
  | .num q => some (ratToString q)
  | .nan => some "NaN"
  | .bool b => some (if b then "true" else "false")
  | _ => none

/-- The per-column validation loop of `insert` (source lines 652-704),
iterating only over the positions actually supplied in `call` and returning
the array that `data.push(call)` will append.  `i` is the running column
index, `data` the existing rows (read by the autoincrement and uniqueness
checks).  The source computes the type conversion into the loop-local
`value` but never writes it back into `call[i]`, so the supplied value is
kept as-is in the returned row; the converted value is only used by the
uniqueness comparison. -/
def insertCols (data : List (List JsVal)) : List Key → Nat → List JsVal →
    Except OErr (List JsVal)
  | _, _, [] => .ok []
  | [], _, rest => .ok rest
  | key :: krest, i, v :: crest =>
    if v = .undef then
      if key.required then
        .error ⟨"A value is expected for key \"" ++ key.name ++ "\"", -49⟩
      else
        let v' := if key.attributes.contains "autoincrement" then
            match data.getLast? with
            | some lastRow => jsAddOne ((lastRow.get? i).getD .undef)
            | none => .num 1
          else v
        (insertCols data krest (i + 1) crest).map (fun rest => v' :: rest)
    else
      match jsPrimToString v with
      | none =>
        .error ⟨"Expecting a string, number or boolean value for key \"" ++ key.name ++ "\"", -22⟩
      | some s =>
        if s.length > key.size then
          .error ⟨"Content is too long for key \"" ++ key.name ++ "\" (" ++
            Nat.repr s.length ++ " bytes given, " ++ Nat.repr key.size ++ " allowed)", -48⟩
        else if !typeCheck key.type s then
          .error ⟨"Invalid value given for key \"" ++ key.name ++
            "\", expected type is \"" ++ key.type ++ "\"", -23⟩
        else
          let conv : JsVal :=
            if key.type = "boolean" then .bool (s = "true")
            else if key.type = "number" then .num (parseFloatQ s)
            else if key.type = "integer" then .num (parseIntQ s)
            else .str s
          if key.unique && data.any (fun el => jsStrictEq ((el.get? i).getD .undef) conv) then
            .error ⟨"Duplicate value: Key \"" ++ key.name ++
              "\" is unique, but value \"" ++ jsDisplay conv ++ "\" was inserted two times", -9⟩
          else
            (insertCols data krest (i + 1) crest).map (fun rest => v :: rest)

/-- The positional-form `insert` on a table (source lines 646-708): `call`
is the positional value array; on success the validated array is appended to
the data collection.  The second `insertCols` equation (more keys supplied
than values) never fires here because over-long inputs are rejected first. -/
def insertArray (keys : List Key) (data : List (List JsVal)) (call : List JsVal) :
    Except OErr (List (List JsVal)) :=
  if call.length > keys.length then
    .error ⟨Nat.repr call.length ++ " data were given at insertion, but there are only " ++
      Nat.repr keys.length ++ " keys in the table", -21⟩
  else
    (insertCols data keys 0 call).map (fun row => data ++ [row])

/-- The object-form `insert` normalization (source lines 623-644): a list of
name/value pairs in property-iteration order is scattered into a fresh array
of schema length, whose unset slots are the JS `undefined`; an unknown name
is error -20. -/
def insertObjFill (keyNames : List String) (put : List JsVal) :
    List (String × JsVal) → Except OErr (List JsVal)
  | [] => .ok put
  | (k, v) :: rest =>
    let index := keyNames.indexOf k
    if index = keyNames.length then
      .error ⟨"Unknown key \"" ++ k ++ "\" at insertion", -20⟩
    else insertObjFill keyNames (put.set index v) rest

/-- The object-form `insert` on a table: normalize to the positional form,
then proceed as `insertArray`. -/
def insertObj (keys : List Key) (data : List (List JsVal))
    (pairs : List (String × JsVal)) : Except OErr (List (List JsVal)) :=
  match insertObjFill (keys.map Key.name) (List.replicate keys.length .undef) pairs with
  | .error e => .error e
  | .ok call => insertArray keys data call

/-- Reference-level model of the array-form `insert`, for aliasing claims:
JavaScript arrays live on a heap (indexed by reference) and the table data
stores references.  `data.push(call)` appends the caller\x27s reference
itself, and the in-place `call[i] = ...` writes of the loop land in the
caller\x27s array, modelled by writing the loop result back at `ref`. -/
def insertRef (keys : List Key) (tdata : List Nat) (heap : List (List JsVal))
    (ref : Nat) : Except OErr (List Nat × List (List JsVal)) :=
  match heap.get? ref with
  | none => .error ⟨"A valid object is expected for the .insert() function", -19⟩
  | some call =>
    if call.length > keys.length then
      .error ⟨Nat.repr call.length ++ " data were given at insertion, but there are only " ++
        Nat.repr keys.length ++ " keys in the table", -21⟩
    else
      (insertCols (tdata.map (fun r => (heap.get? r).getD [])) keys 0 call).map
        (fun row => (tdata ++ [ref], heap.set ref row))

/-- The rows of a table in the reference-level model: each stored reference
read through the heap (what the `get` scan iterates over). -/
def rowsView (tdata : List Nat) (heap : List (List JsVal)) : List (List JsVal) :=
  tdata.map (fun r => (heap.get? r).getD [])

/-- A parsed condition: key name, comparator and comparative value, the
`{ key, check, value }` objects built by `conditionsTree`. -/
structure Cond where
  key : String
  check : String
  value : String
deriving DecidableEq, Repr

/-- The compiled condition tree: needed conditions, groups where at least
one condition must hold, and conditions that must fail. -/
structure CondTree where
  and : List Cond
  or : List (List Cond)
  not : List Cond
deriving DecidableEq, Repr

/-- The empty condition tree, which every row satisfies. -/
def emptyTree : CondTree := ⟨[], [], []⟩

/-- The `dictionnary.joinOperators` list. -/
def joinOperators : List String := ["AND", "OR", "NOT"]

/-- The `dictionnary.checkSymbols` list of supported comparators. -/
def checkSymbols : List String := ["^=", "==", "~=", "$=", "!=", ">", "<", ">=", "<="]

/-- The `dictionnary.getMethods` list. -/
def getMethods : List String := ["first", "last", "count"]

/-- The tail `' *(.*)$'` of the condition regex: the space star is greedy,
`(.*)` then has to reach the end of the input, so the whole tail matches
exactly when no line terminator remains, capturing everything after the
maximal space run. -/
def tailCap (l : List Char) : Option (List Char) :=
  if l.all (fun c => !isLineTerm c) then some (l.dropWhile (fun c => c = ' ')) else none

/-- The single-character alternative `.` of the comparator group, followed
by the regex tail. -/
def compDot (l : List Char) : Option (List Char × List Char) :=
  match l with
  | c0 :: rest => if isLineTerm c0 then none else (tailCap rest).map (fun v => ([c0], v))
  | [] => none

/-- The comparator group `(.=|.)` followed by the tail: the two-character
alternative `.=` (any non-terminator character followed by a literal `=`)
is tried first, exactly as in the source regex. -/
def compCap (l : List Char) : Option (List Char × List Char) :=
  match l with
  | [] => compDot []
  | c0 :: rest =>
    if rest.head? = some '=' then
      if isLineTerm c0 then compDot (c0 :: rest)
      else
        match tailCap rest.tail with
        | some v => some ([c0, '='], v)
        | none => compDot (c0 :: rest)
    else compDot (c0 :: rest)

/-- The greedy `' *'` before the comparator group, with backtracking: as
many spaces as possible are consumed first, giving back one at a time if the
remainder fails to match. -/
def spacesComp : List Char → Option (List Char × List Char)
  | [] => compCap []
  | c :: rest =>
    if c = ' ' then
      match spacesComp rest with
      | some r => some r
      | none => compCap (c :: rest)
    else compCap (c :: rest)

/-- The greedy `[a-zA-Z0-9_]*` continuation of the name group, with
backtracking: longer names are preferred, and on failure of the remainder
the name is shortened one character at a time.  `acc` holds the reversed
name matched so far. -/
def nameRest (acc : List Char) : List Char → Option (List Char × List Char × List Char)
  | c :: rest =>
    if isNameChar c then
      match nameRest (c :: acc) rest with
      | some r => some r
      | none => (spacesComp (c :: rest)).map (fun p => (acc.reverse, p.1, p.2))
    else (spacesComp (c :: rest)).map (fun p => (acc.reverse, p.1, p.2))
  | [] => (spacesComp []).map (fun p => (acc.reverse, p.1, p.2))

/-- The condition regex of the source,
`/^([a-zA-Z][a-zA-Z0-9_]*) *(.=|.) *(.*)$/`, with JavaScript leftmost-greedy
backtracking semantics; returns the three capture groups. -/
def condRegex (l : List Char) : Option (List Char × List Char × List Char) :=
  match l with
  | c :: rest => if isNameStart c then nameRest [c] rest else none
  | [] => none

/-- The running state of the `conditionsTree` loop: the tree built so far
and the `expectJoin` / `operator` / `lastOperator` variables of the source. -/
structure CTState where
  tree : CondTree
  expectJoin : Bool
  operator : String
  lastOperator : String
deriving DecidableEq, Repr

/-- Result of the `conditionsTree` loop: the final state, a returned OError
value, or a thrown exception. -/
inductive LoopRes where
  | ok (st : CTState)
  | errv (e : OErr)
  | thrown (e : JsExc)
deriving DecidableEq, Repr

/-- Result of `conditionsTree` itself. -/
inductive CTRes where
  | ok (t : CondTree)
  | errv (e : OErr)
  | thrown (e : JsExc)
deriving DecidableEq, Repr

/-- Models `where[lastOperator.toLocaleLowerCase()].splice(-1)` followed by
pushing the removed clause as a fresh singleton or-group (source line 1011).
The call site guarantees `lastOperator` is `AND` or `NOT` (the guard
excludes `OR`) and that the bucket is nonempty, because a join token is
processed only immediately after a condition was pushed into that very
bucket; on the unreachable empty bucket the source would push a group
holding `undefined`, modelled here as an empty group. -/
def spliceToOr (t : CondTree) (lastOp : String) : CondTree :=
  if lastOp = "AND" then
    ⟨t.and.dropLast, t.or ++ [(t.and.getLast?.map (fun c => [c])).getD []], t.not⟩
  else if lastOp = "NOT" then
    ⟨t.and, t.or ++ [(t.not.getLast?.map (fun c => [c])).getD []], t.not.dropLast⟩
  else t

/-- The `switch (operator)` push of a parsed condition (source lines
1048-1060).  Pushing into the or-bucket targets the currently-open last
group; on an empty or-list the source would throw (push on `undefined`),
which is unreachable, see `spliceToOr`.  An operator outside the three
cases falls through the switch and pushes nothing, as in the source. -/
def pushCond (t : CondTree) (op : String) (c : Cond) : Except JsExc CondTree :=
  if op = "AND" then .ok ⟨t.and ++ [c], t.or, t.not⟩
  else if op = "OR" then
    match t.or.getLast? with
    | some g => .ok ⟨t.and, t.or.dropLast ++ [g ++ [c]], t.not⟩
    | none => .error (.typeError "Cannot read properties of undefined (reading \x27push\x27)")
  else if op = "NOT" then .ok ⟨t.and, t.or, t.not ++ [c]⟩
  else .ok t

/-- Result of parsing and pushing one condition string. -/
inductive PushRes where
  | ok (t : CondTree)
  | errv (e : OErr)
  | thrown (e : JsExc)
deriving DecidableEq, Repr

/-- Parsing of one condition string and its push into the tree (source
lines 1018-1060): run the regex, rebuild the comparator (a single `=`
becomes `==`), then check the key, the comparator and the comparative
value, in that order. -/
def parsePush (keyNames : List String) (op : String) (t : CondTree) (cond : String) :
    PushRes :=
  match condRegex cond.data with
  | none => .errv ⟨".get: Unsupported condition given \"" ++ cond ++ "\"", -35⟩
  | some (k, c, v) =>
    let key := String.mk k
    let check := String.mk c ++ (if String.mk c = "=" then "=" else "")
    let value := String.mk v
    if !keyNames.contains key then
      .errv ⟨".get: Table doesn\x27t have a \"" ++ key ++ "\" key", -30⟩
    else if !checkSymbols.contains check then
      .errv ⟨".get: Unsupported comparator \"" ++ check ++ "\" in condition \"" ++ cond ++ "\"", -37⟩
    else if !isValidValue value then
      .errv ⟨".get: Invalid comparative value given \"" ++ value ++ "\" in condition \"" ++ cond ++ "\"", -38⟩
    else
      match pushCond t op ⟨key, check, value⟩ with
      | .ok t2 => .ok t2
      | .error e => .thrown e

/-- The token loop of `conditionsTree` (source lines 985-1061).  The
`expectJoin` flag is toggled at the top of each iteration; when a join
operator is expected, a join token updates `operator` (moving the last
clause into a fresh or-group on a first `OR`), while a non-join token falls
back to an implicit `AND`. -/
def condLoop (keyNames : List String) : List String → CTState → LoopRes
  | [], st => .ok st
  | cond :: rest, st =>
    if !st.expectJoin then
      let lastOp := st.operator
      if joinOperators.contains cond then
        let t2 := if cond = "OR" ∧ lastOp ≠ "OR" then spliceToOr st.tree lastOp else st.tree
        condLoop keyNames rest ⟨t2, true, cond, lastOp⟩
      else
        match parsePush keyNames "AND" st.tree cond with
        | .ok t2 => condLoop keyNames rest ⟨t2, false, "AND", lastOp⟩
        | .errv e => .errv e
        | .thrown e => .thrown e
    else
      match parsePush keyNames st.operator st.tree cond with
      | .ok t2 => condLoop keyNames rest ⟨t2, false, st.operator, st.lastOperator⟩
      | .errv e => .errv e
      | .thrown e => .thrown e

/-- A string-or-array argument, the two accepted shapes of the `where` and
`order` fields. -/
inductive StrOrList where
  | str (s : String)
  | list (l : List String)
deriving DecidableEq, Repr

/-- `meta.conditionsTree` (source lines 951-1070): normalize a single
string to a one-element list, return the empty tree on an empty list,
otherwise run the token loop; a trailing join operator is error -36. -/
def conditionsTree (conditions : StrOrList) (keyNames : List String) : CTRes :=
  let conds := match conditions with
    | .str s => [s]
    | .list l => l
  if conds.isEmpty then .ok emptyTree
  else
    match condLoop keyNames conds ⟨emptyTree, true, "AND", "AND"⟩ with
    | .errv e => .errv e
    | .thrown e => .thrown e
    | .ok st =>
      if st.expectJoin then
        .errv ⟨".get: Missing a condition at the end of the \"where\" field (can\x27t stop after an operator)", -36⟩
      else .ok st.tree

/-- Result of the single-condition matcher: a returned boolean, a returned
OError value, or a thrown exception. -/
inductive MatchRes where
  | ret (b : Bool)
  | errv (e : OErr)
  | thrown (e : JsExc)
deriving DecidableEq, Repr

/-- The quote stripping of the matcher: `comp.substr(1, comp.length - 2)`
when the value is quoted at both ends (for the one-character string `"\x27"`
this yields the empty string, as in the source). -/
def stripQuotes (s : String) : String :=
  if (listStartsWith s.data ['"'] && listEndsWith s.data ['"']) ||
     (listStartsWith s.data ['\x27'] && listEndsWith s.data ['\x27']) then
    String.mk ((s.data.drop 1).take (s.length - 2))
  else s

/-- The comparator dispatch of the matcher (source lines 748-760).  As in
the source, the `!=` branch returns the `==` expression and the `<=` branch
returns the `>=` expression. -/
def applyCheck (check value comp : String) : MatchRes :=
  if check = "==" then .ret (value == comp)
  else if check = "!=" then .ret (value == comp)
  else if check = ">" then .ret (lexLt comp.data value.data)
  else if check = "<" then .ret (lexLt value.data comp.data)
  else if check = ">=" then .ret (!lexLt value.data comp.data)
  else if check = "<=" then .ret (!lexLt value.data comp.data)
  else if check = "^=" then .ret (listStartsWith value.data comp.data)
  else if check = "$=" then .ret (listEndsWith value.data comp.data)
  else if check = "~=" then .ret (listContainsSub value.data comp.data)
  else .errv ⟨"Unknown comparator \"" ++ check ++ "\"", -46⟩

/-- The single-condition matcher `match` (source lines 717-761); the
argument-shape checks of the source are enforced by the embedding types.
The unknown-key branch builds its message from the undeclared variable
`key`, so in strict mode it throws a ReferenceError instead of returning
the OError value.  The row cell is read through `toString()`, which throws
a TypeError on an absent (`undefined`) cell. -/
def matchCond (keyNames : List String) (row : List JsVal) (cond : Cond) : MatchRes :=
  if !keyNames.contains cond.key then
    .thrown (.referenceError "key is not defined")
  else
    match jsToString ((row.get? (keyNames.indexOf cond.key)).getD .undef) with
    | .error e => .thrown e
    | .ok value => applyCheck cond.check value (stripQuotes cond.value)

/-- The argument of `get`.  Absent fields are `none` (JS `undefined`); the
`where` field is named `whereQ` because `where` is a Lean keyword; `limit`
is a JS number (infinities unmodelled; no claim uses a limit). -/
structure GetSpec where
  keys : Option (List String)
  order : Option StrOrList
  whereQ : Option StrOrList
  limit : Option ℚ
  method : Option String
deriving DecidableEq, Repr

/-- The result rows of `get`: after the `first` / `last` method phase a
row slot can hold the JS `undefined`, hence the `Option`; `cnt` is the
integer produced by the `count` method. -/
inductive GetOutput where
  | rows (rs : List (Option (List JsVal)))
  | cnt (n : Nat)
deriving DecidableEq, Repr

/-- Result of `get`: a returned output, a returned OError value, or a
thrown exception. -/
inductive GetRes where
  | ok (o : GetOutput)
  | errv (e : OErr)
  | thrown (e : JsExc)
deriving DecidableEq, Repr

/-- Validation of the `keys` field (source lines 348-360): each requested
key must exist and must not repeat (its first index must be its own). -/
def checkKeysAux (keyNames allKeys : List String) : List String → Nat → Option OErr
  | [], _ => none
  | k :: rest, i =>
    if !keyNames.contains k then
      some ⟨".get: Table doesn\x27t have a \"" ++ k ++ "\" key", -30⟩
    else if allKeys.indexOf k ≠ i then
      some ⟨".get: Key \"" ++ k ++ "\" is specified two times in \"keys\"", -32⟩
    else checkKeysAux keyNames allKeys rest (i + 1)

/-- One entry of the `order` field (source lines 377-409): split at the
first `:`; no suffix means ascending; a suffix other than `ASC` / `DESC` is
error -29; the stored entry is the key index (the source pushes
`keyNames.indexOf(name)` and detects a missing name afterwards through
`keyNames[-1]` being `undefined`, hence the literal `"undefined"` in the
message). -/
def parseOrderField (keyNames : List String) (field : String) :
    Except OErr (Nat × Bool) :=
  match splitFirst ':' field.data with
  | none =>
    let idx := keyNames.indexOf field
    if idx = keyNames.length then
      .error ⟨".get: Table doesn\x27t have a \"undefined\" key", -30⟩
    else .ok (idx, true)
  | some (nm, sfx) =>
    let ascStr := String.mk sfx
    if ascStr ≠ "ASC" ∧ ascStr ≠ "DESC" then
      .error ⟨".get: Unsupported \"" ++ ascStr ++ "\" order method, must be \"ASC\" or \"DESC\"", -29⟩
    else
      let idx := keyNames.indexOf (String.mk nm)
      if idx = keyNames.length then
        .error ⟨".get: Table doesn\x27t have a \"undefined\" key", -30⟩
      else .ok (idx, ascStr = "ASC")

/-- Validation of the whole `order` field, first error wins. -/
def parseOrder (keyNames : List String) : List String → Except OErr (List (Nat × Bool))
  | [] => .ok []
  | f :: rest => do
    let e ← parseOrderField keyNames f
    let es ← parseOrder keyNames rest
    pure (e :: es)

/-- The normalization of the `order` field (source lines 367-373): a single
string `s` becomes the one-element list `s ++ ":ASC"`. -/
def orderFieldsOf : Option StrOrList → List String
  | none => []
  | some (.str s) => [s ++ ":ASC"]
  | some (.list l) => l

/-- Validation of the `limit` field (source lines 432-441): a negative or
non-integral number is error -40. -/
def validateLimit : Option ℚ → Option OErr
  | none => none
  | some q =>
    if q < 0 ∨ (Rat.floor q : ℚ) ≠ q then
      some ⟨".get: Limit must be a positive integer", -40⟩
    else none

/-- Validation of the `method` field (source lines 445-457). -/
def validateMethod (orderLen : Nat) : Option String → Option OErr
  | none => none
  | some m =>
    if m = "" then some ⟨".get: \"method\" must be a string", -41⟩
    else if !getMethods.contains m then
      some ⟨".get: Unsupported \"" ++ m ++ "\" method", -42⟩
    else if orderLen ≠ 0 ∧ m = "count" then
      some ⟨".get: The \"count\" method is incompatible with the \"order\" field", -47⟩
    else none

/-- The `thereAreConditions` test of the scan (source line 463), computed
from the raw `where` field: `what.where && what.where.length`. -/
def whereTruthy : Option StrOrList → Bool
  | none => false
  | some (.str s) => s ≠ ""
  | some (.list l) => !l.isEmpty

/-- How a match result is consumed by the scan conditionals: a returned
OError object is truthy in the source `if`s, a thrown exception
propagates. -/
def truthyMatch (keyNames : List String) (row : List JsVal) (c : Cond) :
    Except JsExc Bool :=
  match matchCond keyNames row c with
  | .thrown e => .error e
  | .ret b => .ok b
  | .errv _ => .ok true

/-- The and-bucket loop of the scan (source lines 479-491): true when some
condition evaluates falsy, stopping there. -/
def andFails (keyNames : List String) (row : List JsVal) : List Cond → Except JsExc Bool
  | [] => .ok false
  | c :: rest => do
    let b ← truthyMatch keyNames row c
    if !b then pure true else andFails keyNames row rest

/-- Truthiness of the first matching condition in a list, stopping at the
first truthy result (used for the not-bucket and inside each or-group). -/
def anyTruthy (keyNames : List String) (row : List JsVal) : List Cond → Except JsExc Bool
  | [] => .ok false
  | c :: rest => do
    let b ← truthyMatch keyNames row c
    if b then pure true else anyTruthy keyNames row rest

/-- The or-bucket loop of the scan (source lines 513-534): true when some
group has no truthy condition, stopping at that group. -/
def anyGroupFails (keyNames : List String) (row : List JsVal) :
    List (List Cond) → Except JsExc Bool
  | [] => .ok false
  | g :: rest => do
    let m ← anyTruthy keyNames row g
    if !m then pure true else anyGroupFails keyNames row rest

/-- Whether one row passes all three buckets (source lines 473-540), with
the short-circuits of the source: the not-bucket runs only when the
and-bucket passed, the or-groups only after both. -/
def rowPasses (keyNames : List String) (w : CondTree) (row : List JsVal) :
    Except JsExc Bool := do
  let a ← andFails keyNames row w.and
  if a then pure false
  else
    let n ← anyTruthy keyNames row w.not
    if n then pure false
    else
      let g ← anyGroupFails keyNames row w.or
      pure !g

/-- The `output.length === what.limit` break test of the scan. -/
def limitReached : Option ℚ → Nat → Bool
  | none, _ => false
  | some q, n => (n : ℚ) == q

/-- The scan phase of `get` (source lines 461-545): iterate the rows in
storage order, stop when the limit is reached, keep the rows that pass the
condition tree (all of them when there are no conditions); kept rows are
copies, which for these primitive-valued rows is value equality. -/
def scanRows (keyNames : List String) (limit : Option ℚ) (conds : Bool)
    (w : CondTree) : List (List JsVal) → List (List JsVal) →
    Except JsExc (List (List JsVal))
  | [], out => .ok out
  | row :: rest, out =>
    if limitReached limit out.length then .ok out
    else if conds then
      match rowPasses keyNames w row with
      | .error e => .error e
      | .ok true => scanRows keyNames limit conds w rest (out ++ [row])
      | .ok false => scanRows keyNames limit conds w rest out
    else scanRows keyNames limit conds w rest (out ++ [row])

/-- The method phase of `get` (source lines 548-553): `first` keeps
`[output[0]]`, `last` keeps `[output[output.length - 1]]` (on an empty
output both are one-element arrays holding the JS `undefined`), `count`
replaces the output by its length. -/
def methodPhase (m : Option String) (out : List (List JsVal)) : GetOutput :=
  match m with
  | some "first" => .rows [out.get? 0]
  | some "last" => .rows [out.get? (out.length - 1)]
  | some "count" => .cnt out.length
  | _ => .rows (out.map some)

/-- The sort comparator (source lines 558-571): first order key on which
the two rows differ decides, honouring that key\x27s direction.  A slot
holding the JS `undefined` row (possible only in one-element lists, on
which a sort never invokes the comparator) is read as an undefined cell. -/
def cmpRows (a b : Option (List JsVal)) : List (Nat × Bool) → Int
  | [] => 0
  | (i, asc) :: rest =>
    let x := ((a.getD []).get? i).getD .undef
    let y := ((b.getD []).get? i).getD .undef
    if !jsStrictEq x y then
      if jsGT x y then (if asc then 1 else -1) else (if asc then -1 else 1)
    else cmpRows a b rest

/-- Stable insertion of an element into a sorted list under a JS
comparator: `x` goes before the first `y` it does not compare greater
than. -/
def insertBy {α : Type} (cmp : α → α → Int) (x : α) : List α → List α
  | [] => [x]
  | y :: ys => if cmp x y > 0 then y :: insertBy cmp x ys else x :: y :: ys

/-- Stable sort under a JS comparator, modelling `Array.prototype.sort`
(required to be stable; for inconsistent comparators the ECMAScript result
is implementation-defined — no claim below exercises the sort phase). -/
def stableSort {α : Type} (cmp : α → α → Int) : List α → List α
  | [] => []
  | x :: rest => insertBy cmp x (stableSort cmp rest)

/-- The projection of one row onto the requested keys (source lines
582-585); a missing cell is the JS `undefined`. -/
def projectRow (keyNames ks : List String) (row : List JsVal) : List JsVal :=
  ks.map (fun k => (row.get? (keyNames.indexOf k)).getD .undef)

/-- The projection phase over the output rows: a slot holding the JS
`undefined` row (from `first` / `last` on an empty output) makes the source
throw when indexed. -/
def projectRows (keyNames ks : List String) :
    List (Option (List JsVal)) → Except JsExc (List (Option (List JsVal)))
  | [] => .ok []
  | some r :: rest =>
    (projectRows keyNames ks rest).map (fun l => some (projectRow keyNames ks r) :: l)
  | none :: _ =>
    .error (.typeError "Cannot read properties of undefined (reading \x270\x27)")

/-- `get` (source lines 335-595): validate `keys`, `order`, `where`,
`limit` and `method` in that order, then scan, apply the method, sort, and
project.  The sort is skipped for `count` (the validation already rejected
`count` with a nonempty order) and the projection loop does not run on the
integer output of `count`, as in the source. -/
def get (keyNames : List String) (data : List (List JsVal)) (what : GetSpec) : GetRes :=
  match what.keys.bind (fun ks => checkKeysAux keyNames ks ks 0) with
  | some e => .errv e
  | none =>
    match parseOrder keyNames (orderFieldsOf what.order) with
    | .error e => .errv e
    | .ok order =>
      match (match what.whereQ with
             | none => CTRes.ok emptyTree
             | some w => conditionsTree w keyNames) with
      | .errv e => .errv e
      | .thrown e => .thrown e
      | .ok w =>
        match validateLimit what.limit with
        | some e => .errv e
        | none =>
          match validateMethod order.length what.method with
          | some e => .errv e
          | none =>
            match scanRows keyNames what.limit (whereTruthy what.whereQ) w data [] with
            | .error e => .thrown e
            | .ok out =>
              let o1 := methodPhase what.method out
              let o2 := match o1 with
                | .cnt n => GetOutput.cnt n
                | .rows rs =>
                  .rows (if order.isEmpty then rs
                         else stableSort (fun a b => cmpRows a b order) rs)
              match what.keys with
              | some ks =>
                if ks.isEmpty then .ok o2
                else
                  match o2 with
                  | .cnt n => .ok (.cnt n)
                  | .rows rs =>
                    match projectRows keyNames ks rs with
                    | .error e => .thrown e
                    | .ok rs2 => .ok (.rows rs2)
              | none => .ok o2

/-- The identifier grammar actually accepted by the condition regex name
group: a leading letter followed by letters, digits or underscores. -/
def letterIdent (s : String) : Bool :=
  match s.data with
  | [] => false
  | c :: rest => isNameStart c && rest.all isNameChar

/-- A string with its leading spaces removed (what the regex tail captures
as the comparative value). -/
def dropSpaces (s : String) : String :=
  String.mk (s.data.dropWhile (fun c => c = ' '))

/-- A string free of line terminators (one the regex `.` can traverse). -/
def ltFree (s : String) : Bool := s.data.all (fun c => !isLineTerm c)

theorem string_mk_data (s : String) : String.mk s.data = s := rfl

theorem string_data_append (a b : String) : (a ++ b).data = a.data ++ b.data := rfl

/- ------------------------------------------------------------------ -/
/- Claim C1                                                            -/
/- ------------------------------------------------------------------ -/

/-- Claim C1 is violated by the source: the insert loop computes the
column-typed conversion into its local `value` but never writes it back
into `call[i]`, so inserting the string `"true"` into a boolean column
appends the raw string, not the boolean `true` that the claim (and the
round-trip property of the spec) requires. -/
theorem insert_stores_raw_value_bug :
    insertArray [⟨"flag", "boolean", 5, false, false, []⟩] [] [.str "true"]
      = .ok [[JsVal.str "true"]] ∧
    [[JsVal.str "true"]] ≠ [[JsVal.bool true]] :=
  ⟨rfl, by decide⟩

/- ------------------------------------------------------------------ -/
/- Claim C2                                                            -/
/- ------------------------------------------------------------------ -/

/-- Claim C2: for every key-name list, row, key and operand, evaluating the
single-condition matcher with `!=` returns exactly the `==` result, and
`<=` returns exactly the `>=` result (the source duplicates the
expressions). -/
theorem match_neq_eq_same_and_le_ge_same (keyNames : List String)
    (row : List JsVal) (k v : String) :
    matchCond keyNames row ⟨k, "!=", v⟩ = matchCond keyNames row ⟨k, "==", v⟩ ∧
    matchCond keyNames row ⟨k, "<=", v⟩ = matchCond keyNames row ⟨k, ">=", v⟩ := by
  have hmain : ∀ c1 c2 : String,
      (∀ value comp, applyCheck c1 value comp = applyCheck c2 value comp) →
      matchCond keyNames row ⟨k, c1, v⟩ = matchCond keyNames row ⟨k, c2, v⟩ := by
    intro c1 c2 hac
    simp only [matchCond]
    by_cases hc : (!keyNames.contains k) = true
    · rw [if_pos hc, if_pos hc]
    · rw [if_neg hc, if_neg hc]
      cases jsToString ((row.get? (keyNames.indexOf k)).getD .undef) with
      | error e => rfl
      | ok value => exact hac value (stripQuotes v)
  exact ⟨hmain "!=" "==" (fun _ _ => rfl), hmain "<=" ">=" (fun _ _ => rfl)⟩

/- ------------------------------------------------------------------ -/
/- Claim C3                                                            -/
/- ------------------------------------------------------------------ -/

/-- Claim C3: the OR-grouping of the condition compiler: compiling
`A AND B OR C` puts A alone in the and-bucket and moves B into a fresh
or-group together with C, and compiling `A OR B OR C` yields the single
or-group holding A, B and C. -/
theorem conditionsTree_or_grouping :
    conditionsTree (.list ["a==1", "AND", "b==2", "OR", "c==3"]) ["a", "b", "c"]
      = .ok ⟨[⟨"a", "==", "1"⟩], [[⟨"b", "==", "2"⟩, ⟨"c", "==", "3"⟩]], []⟩ ∧
    conditionsTree (.list ["a==1", "OR", "b==2", "OR", "c==3"]) ["a", "b", "c"]
      = .ok ⟨[], [[⟨"a", "==", "1"⟩, ⟨"b", "==", "2"⟩, ⟨"c", "==", "3"⟩]], []⟩ :=
  ⟨by decide, by decide⟩

/- ------------------------------------------------------------------ -/
/- Claim C4                                                            -/
/- ------------------------------------------------------------------ -/

/-- The scan with no conditions and no limit keeps every row in storage
order. -/
theorem scanRows_no_filter (keyNames : List String) (w : CondTree)
    (data : List (List JsVal)) : ∀ out : List (List JsVal),
    scanRows keyNames none false w data out = .ok (out ++ data) := by
  induction data with
  | nil => intro out; simp [scanRows]
  | cons r rest ih =>
    intro out
    simp [scanRows, limitReached, ih]

/-- Claim C4: `get` with the empty query specification returns exactly the
stored rows in insertion order (and `insertArray` appends exactly one row
per successful call, by its definition). -/
theorem get_empty_spec_returns_all_rows (keyNames : List String)
    (data : List (List JsVal)) :
    get keyNames data ⟨none, none, none, none, none⟩ = .ok (.rows (data.map some)) := by
  simp [get, orderFieldsOf, parseOrder, validateLimit, validateMethod, whereTruthy,
        scanRows_no_filter, methodPhase]

/- ------------------------------------------------------------------ -/
/- Claim C5                                                            -/
/- ------------------------------------------------------------------ -/

/-- Claim C5 is violated by the source: asking the matcher about a key the
table does not have throws a strict-mode ReferenceError (its error-message
template reads the undeclared variable `key` instead of `cond.key`), so
the caller never receives the UnknownKey error value. -/
theorem match_unknown_key_throws :
    matchCond ["a"] [.str "x"] ⟨"b", "==", "\x27x\x27"⟩
      = .thrown (.referenceError "key is not defined") := rfl

/- ------------------------------------------------------------------ -/
/- Claim C6                                                            -/
/- ------------------------------------------------------------------ -/

/-- Claim C6 counterexample: with zero accumulated rows, method `first`
yields a one-element result holding the JS `undefined` (`[output[0]]` on an
empty output), not an empty result. -/
theorem get_first_on_empty_not_empty :
    get ["a"] [] ⟨none, none, none, none, some "first"⟩ = .ok (.rows [none]) ∧
    GetRes.ok (.rows [none]) ≠ .ok (.rows []) :=
  ⟨rfl, by decide⟩

/-- Claim C6 amended: on zero accumulated rows, `first` and `last` each
yield the one-element result holding the absent row, while `count` yields
the integer 0. -/
theorem get_method_phase_on_empty (keyNames : List String) :
    get keyNames [] ⟨none, none, none, none, some "first"⟩ = .ok (.rows [none]) ∧
    get keyNames [] ⟨none, none, none, none, some "last"⟩ = .ok (.rows [none]) ∧
    get keyNames [] ⟨none, none, none, none, some "count"⟩ = .ok (.cnt 0) :=
  ⟨rfl, rfl, rfl⟩

/- ------------------------------------------------------------------ -/
/- Claim C7                                                            -/
/- ------------------------------------------------------------------ -/

/-- Claim C7 counterexample: with a required second column and a
one-element positional input, insert succeeds and appends the short row —
the missing trailing position is never examined, so no
MissingRequiredValue error is raised. -/
theorem insert_short_positional_succeeds :
    insertArray [⟨"a", "text", 10, false, false, []⟩, ⟨"b", "text", 10, false, true, []⟩]
      [] [.str "x"] = .ok [[JsVal.str "x"]] :=
  rfl

/-- The insert loop never looks at schema columns beyond the supplied
positions. -/
theorem insertCols_trailing (data : List (List JsVal)) (k : Key) :
    ∀ (call : List JsVal) (ks : List Key) (i : Nat), call.length ≤ ks.length →
    insertCols data (ks ++ [k]) i call = insertCols data ks i call := by
  intro call
  induction call with
  | nil => intro ks i _; cases ks <;> rfl
  | cons v cr ih =>
    intro ks i h
    cases ks with
    | nil => simp at h
    | cons key kr =>
      have h2 : cr.length ≤ kr.length := by simpa using h
      simp only [List.cons_append, insertCols, List.append_eq]
      rw [ih kr (i + 1) h2]

/-- Claim C7 amended: positions beyond the length of the positional input
are never examined — appending a trailing (even required) column to the
schema does not change the result of insert when the input does not reach
it; within the supplied positions an absent value on a required column
still fails with error -49, as in `insertCols`. -/
theorem insertArray_ignores_trailing_columns (ks : List Key) (k : Key)
    (data : List (List JsVal)) (call : List JsVal) (h : call.length ≤ ks.length) :
    insertArray (ks ++ [k]) data call = insertArray ks data call := by
  unfold insertArray
  have h1 : ¬ call.length > (ks ++ [k]).length := by
    simp only [List.length_append, List.length_cons, List.length_nil]
    omega
  have h2 : ¬ call.length > ks.length := by omega
  rw [if_neg h1, if_neg h2, insertCols_trailing data k call ks 0 h]

/-- Witness for the amended claim C7 at a concrete schema and input. -/
theorem insertArray_ignores_trailing_columns_witness :
    insertArray ([⟨"a", "text", 10, false, false, []⟩] ++ [⟨"b", "text", 10, false, true, []⟩])
      [] [.str "x"]
      = insertArray [⟨"a", "text", 10, false, false, []⟩] [] [.str "x"] :=
  insertArray_ignores_trailing_columns [⟨"a", "text", 10, false, false, []⟩]
    ⟨"b", "text", 10, false, true, []⟩ [] [.str "x"] (by decide)

/- ------------------------------------------------------------------ -/
/- Parsing lemmas shared by claims C8 and C10                          -/
/- ------------------------------------------------------------------ -/

theorem string_data_mk (l : List Char) : (String.mk l).data = l := rfl

theorem validValue_nonempty (v : String) (h : isValidValue v = true) : v.data ≠ [] := by
  intro hv
  have hveq : v = String.mk [] := by
    conv_lhs => rw [← string_mk_data v]
    rw [hv]
  rw [hveq] at h
  exact Bool.false_ne_true h

theorem validValue_head_ne_eq (v : String) (h : isValidValue v = true) :
    v.data.head? ≠ some '=' := by
  intro hv
  obtain ⟨cs, hcs⟩ : ∃ cs, v.data = '=' :: cs := by
    cases hd : v.data with
    | nil => rw [hd] at hv; simp at hv
    | cons c cs =>
      rw [hd] at hv
      simp only [List.head?_cons, Option.some.injEq] at hv
      subst hv
      exact ⟨cs, rfl⟩
  have hveq : v = String.mk ('=' :: cs) := by
    conv_lhs => rw [← string_mk_data v]
    rw [hcs]
  rw [hveq] at h
  exact Bool.false_ne_true h

theorem dropWhile_space_then_ws (l : List Char) :
    (l.dropWhile (fun c => c = ' ')).dropWhile isJsWs = l.dropWhile isJsWs := by
  induction l with
  | nil => rfl
  | cons c cs ih =>
    by_cases hc : c = ' '
    · subst hc
      have e1 : ((' ' :: cs).dropWhile (fun c => c = ' ')) = cs.dropWhile (fun c => c = ' ') := by
        simp [List.dropWhile_cons]
      have e2 : ((' ' :: cs).dropWhile isJsWs) = cs.dropWhile isJsWs := by
        simp [List.dropWhile_cons, isJsWs]
      rw [e1, e2]
      exact ih
    · have e1 : ((c :: cs).dropWhile (fun c => c = ' ')) = c :: cs := by
        simp [List.dropWhile_cons, hc]
      rw [e1]

theorem jsParseFloatOk_dropSpaces (v : String) :
    jsParseFloatOk (dropSpaces v) = jsParseFloatOk v := by
  simp only [jsParseFloatOk, dropSpaces, string_data_mk]
  rw [dropWhile_space_then_ws]

theorem validValue_dropSpaces (v : String) (h : isValidValue v = true) :
    isValidValue (dropSpaces v) = true := by
  by_cases hd : v.data.head? = some ' '
  case neg =>
    have e : v.data.dropWhile (fun c => c = ' ') = v.data := by
      cases hl : v.data with
      | nil => rfl
      | cons c cs =>
        rw [hl] at hd
        simp only [List.head?_cons, Option.some.injEq] at hd
        simp [List.dropWhile_cons, hd]
    rw [dropSpaces, e, string_mk_data]
    exact h
  case pos =>
    obtain ⟨cs, hcs⟩ : ∃ cs, v.data = ' ' :: cs := by
      cases hl : v.data with
      | nil => rw [hl] at hd; simp at hd
      | cons c cs =>
        rw [hl] at hd
        simp only [List.head?_cons, Option.some.injEq] at hd
        subst hd
        exact ⟨cs, rfl⟩
    have hpf : jsParseFloatOk v = true := by
      rw [isValidValue] at h
      have hq1 : listStartsWith v.data ['"'] = false := by rw [hcs]; rfl
      have hq2 : listStartsWith v.data ['\x27'] = false := by rw [hcs]; rfl
      have ht : (v = "true") = False := by
        apply eq_false
        intro he
        rw [he] at hcs
        have hx : ('t' :: 'r' :: 'u' :: 'e' :: [] : List Char) = ' ' :: cs := hcs
        injection hx with h1 _
        exact absurd h1 (by decide)
      have hf : (v = "false") = False := by
        apply eq_false
        intro he
        rw [he] at hcs
        have hx : ('f' :: 'a' :: 'l' :: 's' :: 'e' :: [] : List Char) = ' ' :: cs := hcs
        injection hx with h1 _
        exact absurd h1 (by decide)
      simp only [hq1, hq2, ht, hf, Bool.false_and, Bool.false_or,
        decide_False, Bool.or_false] at h
      exact h
    rw [isValidValue]
    simp [jsParseFloatOk_dropSpaces, hpf]

theorem letterIdent_parts (k : String) (h : letterIdent k = true) :
    ∃ k0 kr, k.data = k0 :: kr ∧ isNameStart k0 = true ∧ kr.all isNameChar = true := by
  simp only [letterIdent] at h
  cases hd : k.data with
  | nil => rw [hd] at h; exact absurd h (by simp)
  | cons a as =>
    rw [hd] at h
    simp only [Bool.and_eq_true] at h
    exact ⟨a, as, rfl, h.1, h.2⟩

theorem tailCap_of_ltFree (l : List Char) (h : l.all (fun c => !isLineTerm c) = true) :
    tailCap l = some (l.dropWhile (fun c => c = ' ')) := by
  rw [tailCap, if_pos h]

theorem compCap_two (x : Char) (v : List Char) (hx : isLineTerm x = false)
    (hv : v.all (fun c => !isLineTerm c) = true) :
    compCap (x :: '=' :: v) = some ([x, '='], v.dropWhile (fun c => c = ' ')) := by
  simp [compCap, hx, tailCap_of_ltFree v hv]

theorem compCap_one (x : Char) (v : List Char) (hx : isLineTerm x = false)
    (hv : v.all (fun c => !isLineTerm c) = true) (hne : v.head? ≠ some '=') :
    compCap (x :: v) = some ([x], v.dropWhile (fun c => c = ' ')) := by
  simp only [compCap]
  rw [if_neg hne]
  simp only [compDot]
  rw [if_neg (by simp [hx]), tailCap_of_ltFree v hv]
  rfl

theorem spacesComp_nonspace (c : Char) (rest : List Char) (hc : ¬ c = ' ') :
    spacesComp (c :: rest) = compCap (c :: rest) := by
  simp only [spacesComp]
  rw [if_neg hc]

theorem nameRest_through (x : List Char) :
    ∀ (acc : List Char) (t0 : Char) (ts cp val : List Char),
    x.all isNameChar = true → isNameChar t0 = false →
    spacesComp (t0 :: ts) = some (cp, val) →
    nameRest acc (x ++ t0 :: ts) = some (acc.reverse ++ x, cp, val) := by
  induction x with
  | nil =>
    intro acc t0 ts cp val _ ht hs
    simp only [List.nil_append, nameRest]
    rw [if_neg (by simp [ht]), hs]
    simp
  | cons y ys ih =>
    intro acc t0 ts cp val hx ht hs
    simp only [List.all_cons, Bool.and_eq_true] at hx
    simp only [List.cons_append, nameRest, List.append_eq]
    rw [if_pos hx.1, ih (y :: acc) t0 ts cp val hx.2 ht hs]
    simp

theorem condRegex_split (k0 : Char) (kr : List Char) (t0 : Char) (ts cp val : List Char)
    (hk0 : isNameStart k0 = true) (hkr : kr.all isNameChar = true)
    (ht : isNameChar t0 = false) (hs : spacesComp (t0 :: ts) = some (cp, val)) :
    condRegex ((k0 :: kr) ++ t0 :: ts) = some (k0 :: kr, cp, val) := by
  simp only [List.cons_append, condRegex]
  rw [if_pos hk0, nameRest_through kr [k0] t0 ts cp val hkr ht hs]
  simp

theorem condRegex_two_char (k v : String) (x : Char)
    (h1 : letterIdent k = true) (hx1 : isNameChar x = false) (hx2 : ¬ x = ' ')
    (hx3 : isLineTerm x = false) (hv : ltFree v = true) :
    condRegex (k.data ++ x :: '=' :: v.data) =
      some (k.data, [x, '='], v.data.dropWhile (fun c => c = ' ')) := by
  obtain ⟨k0, kr, hkd, hk0, hkr⟩ := letterIdent_parts k h1
  rw [hkd]
  exact condRegex_split k0 kr x ('=' :: v.data) [x, '='] _ hk0 hkr hx1
    (by rw [spacesComp_nonspace x ('=' :: v.data) hx2]
        exact compCap_two x v.data hx3 (by simpa [ltFree] using hv))

theorem condRegex_one_char (k v : String) (x : Char)
    (h1 : letterIdent k = true) (hx1 : isNameChar x = false) (hx2 : ¬ x = ' ')
    (hx3 : isLineTerm x = false) (hv : ltFree v = true)
    (hne : v.data.head? ≠ some '=') :
    condRegex (k.data ++ x :: v.data) =
      some (k.data, [x], v.data.dropWhile (fun c => c = ' ')) := by
  obtain ⟨k0, kr, hkd, hk0, hkr⟩ := letterIdent_parts k h1
  rw [hkd]
  exact condRegex_split k0 kr x v.data [x] _ hk0 hkr hx1
    (by rw [spacesComp_nonspace x v.data hx2]
        exact compCap_one x v.data hx3 (by simpa [ltFree] using hv) hne)

theorem parsePush_parsed (names : List String) (op : String) (t : CondTree)
    (cond k : String) (cl vl : List Char)
    (hr : condRegex cond.data = some (k.data, cl, vl)) :
    parsePush names op t cond =
      if !names.contains k then
        .errv ⟨".get: Table doesn\x27t have a \"" ++ k ++ "\" key", -30⟩
      else if !checkSymbols.contains (String.mk cl ++ (if String.mk cl = "=" then "=" else "")) then
        .errv ⟨".get: Unsupported comparator \"" ++
          (String.mk cl ++ (if String.mk cl = "=" then "=" else "")) ++
          "\" in condition \"" ++ cond ++ "\"", -37⟩
      else if !isValidValue (String.mk vl) then
        .errv ⟨".get: Invalid comparative value given \"" ++ String.mk vl ++
          "\" in condition \"" ++ cond ++ "\"", -38⟩
      else
        match pushCond t op ⟨k, String.mk cl ++ (if String.mk cl = "=" then "=" else ""),
            String.mk vl⟩ with
        | .ok t2 => .ok t2
        | .error e => .thrown e := by
  unfold parsePush
  rw [hr]

theorem conditionsTree_single (names : List String) (cond : String) :
    conditionsTree (.list [cond]) names =
      match parsePush names "AND" emptyTree cond with
      | .ok t2 => .ok t2
      | .errv e => .errv e
      | .thrown e => .thrown e := by
  cases h : parsePush names "AND" emptyTree cond with
  | ok t2 => simp [conditionsTree, condLoop, h]
  | errv e => simp [conditionsTree, condLoop, h]
  | thrown e => simp [conditionsTree, condLoop, h]

theorem conditionsTree_letter_cond (k c v : String) (names : List String)
    (hr : condRegex (k ++ c ++ v).data
      = some (k.data, c.data, v.data.dropWhile (fun x => x = ' ')))
    (hcheck : String.mk c.data ++ (if String.mk c.data = "=" then "=" else "") = c)
    (hk : names.contains k = true)
    (hcs : checkSymbols.contains c = true)
    (hval : isValidValue (String.mk (v.data.dropWhile (fun x => x = ' '))) = true) :
    conditionsTree (.list [k ++ c ++ v]) names = .ok ⟨[⟨k, c, dropSpaces v⟩], [], []⟩ := by
  rw [conditionsTree_single names (k ++ c ++ v),
      parsePush_parsed names "AND" emptyTree (k ++ c ++ v) k c.data
        (v.data.dropWhile (fun x => x = ' ')) hr]
  rw [hcheck]
  rw [if_neg (by rw [hk]; decide), if_neg (by rw [hcs]; decide),
      if_neg (by rw [hval]; decide)]
  simp [pushCond, emptyTree, dropSpaces]

/- ------------------------------------------------------------------ -/
/- Claim C8                                                            -/
/- ------------------------------------------------------------------ -/

/-- Claim C8 counterexample: the schema name grammar accepts `_a`, but the
condition regex requires a leading letter, so the condition `_a==1` against
a table that has the key `_a` is rejected as an unsupported condition. -/
theorem underscore_key_condition_rejected :
    nameOk "_a" = true ∧
    conditionsTree (.list ["_a==1"]) ["_a"]
      = .errv ⟨".get: Unsupported condition given \"_a==1\"", -35⟩ :=
  ⟨by decide, by decide⟩

/-- Claim C8 amended: for key names with a leading letter (grammar
`[A-Za-z][A-Za-z0-9_]*`) that are among the table keys, every condition
string name-comparator-literal compiles successfully (the literal being any
line-terminator-free string `isValidValue` accepts); names beginning with an
underscore, though valid schema names, are rejected by the condition
parser. -/
theorem condition_parses_for_letter_idents (k c v : String) (names : List String)
    (h1 : letterIdent k = true) (h2 : names.contains k = true)
    (h3 : checkSymbols.contains c = true) (h4 : isValidValue v = true)
    (h5 : ltFree v = true) :
    conditionsTree (.list [k ++ c ++ v]) names
      = .ok ⟨[⟨k, c, dropSpaces v⟩], [], []⟩ := by
  have hval : isValidValue (String.mk (v.data.dropWhile (fun x => x = ' '))) = true := by
    have hv2 := validValue_dropSpaces v h4
    simpa [dropSpaces] using hv2
  have hne := validValue_head_ne_eq v h4
  have hmem : c ∈ checkSymbols := by simpa using h3
  fin_cases hmem
  · refine conditionsTree_letter_cond k "^=" v names ?_ (by decide) h2 (by decide) hval
    have e : ("^=" : String).data = ['^', '='] := rfl
    have hdt : (k ++ "^=" ++ v).data = k.data ++ '^' :: '=' :: v.data := by
      simp [string_data_append, e]
    rw [hdt]
    exact condRegex_two_char k v '^' h1 (by decide) (by decide) (by decide) h5
  · refine conditionsTree_letter_cond k "==" v names ?_ (by decide) h2 (by decide) hval
    have e : ("==" : String).data = ['=', '='] := rfl
    have hdt : (k ++ "==" ++ v).data = k.data ++ '=' :: '=' :: v.data := by
      simp [string_data_append, e]
    rw [hdt]
    exact condRegex_two_char k v '=' h1 (by decide) (by decide) (by decide) h5
  · refine conditionsTree_letter_cond k "~=" v names ?_ (by decide) h2 (by decide) hval
    have e : ("~=" : String).data = ['~', '='] := rfl
    have hdt : (k ++ "~=" ++ v).data = k.data ++ '~' :: '=' :: v.data := by
      simp [string_data_append, e]
    rw [hdt]
    exact condRegex_two_char k v '~' h1 (by decide) (by decide) (by decide) h5
  · refine conditionsTree_letter_cond k "$=" v names ?_ (by decide) h2 (by decide) hval
    have e : ("$=" : String).data = ['$', '='] := rfl
    have hdt : (k ++ "$=" ++ v).data = k.data ++ '$' :: '=' :: v.data := by
      simp [string_data_append, e]
    rw [hdt]
    exact condRegex_two_char k v '$' h1 (by decide) (by decide) (by decide) h5
  · refine conditionsTree_letter_cond k "!=" v names ?_ (by decide) h2 (by decide) hval
    have e : ("!=" : String).data = ['!', '='] := rfl
    have hdt : (k ++ "!=" ++ v).data = k.data ++ '!' :: '=' :: v.data := by
      simp [string_data_append, e]
    rw [hdt]
    exact condRegex_two_char k v '!' h1 (by decide) (by decide) (by decide) h5
  · refine conditionsTree_letter_cond k ">" v names ?_ (by decide) h2 (by decide) hval
    have e : (">" : String).data = ['>'] := rfl
    have hdt : (k ++ ">" ++ v).data = k.data ++ '>' :: v.data := by
      simp [string_data_append, e]
    rw [hdt]
    exact condRegex_one_char k v '>' h1 (by decide) (by decide) (by decide) h5 hne
  · refine conditionsTree_letter_cond k "<" v names ?_ (by decide) h2 (by decide) hval
    have e : ("<" : String).data = ['<'] := rfl
    have hdt : (k ++ "<" ++ v).data = k.data ++ '<' :: v.data := by
      simp [string_data_append, e]
    rw [hdt]
    exact condRegex_one_char k v '<' h1 (by decide) (by decide) (by decide) h5 hne
  · refine conditionsTree_letter_cond k ">=" v names ?_ (by decide) h2 (by decide) hval
    have e : (">=" : String).data = ['>', '='] := rfl
    have hdt : (k ++ ">=" ++ v).data = k.data ++ '>' :: '=' :: v.data := by
      simp [string_data_append, e]
    rw [hdt]
    exact condRegex_two_char k v '>' h1 (by decide) (by decide) (by decide) h5
  · refine conditionsTree_letter_cond k "<=" v names ?_ (by decide) h2 (by decide) hval
    have e : ("<=" : String).data = ['<', '='] := rfl
    have hdt : (k ++ "<=" ++ v).data = k.data ++ '<' :: '=' :: v.data := by
      simp [string_data_append, e]
    rw [hdt]
    exact condRegex_two_char k v '<' h1 (by decide) (by decide) (by decide) h5

/-- Witness for the amended claim C8 at a concrete key, comparator and
literal. -/
theorem condition_parses_for_letter_idents_witness :
    letterIdent "a" = true ∧ (["a"] : List String).contains "a" = true ∧
    checkSymbols.contains "==" = true ∧ isValidValue "1" = true ∧ ltFree "1" = true ∧
    conditionsTree (.list ["a" ++ "==" ++ "1"]) ["a"]
      = .ok ⟨[⟨"a", "==", dropSpaces "1"⟩], [], []⟩ :=
  ⟨by decide, by decide, by decide, by decide, by decide,
   condition_parses_for_letter_idents "a" "==" "1" ["a"] (by decide) (by decide)
     (by decide) (by decide) (by decide)⟩

/- ------------------------------------------------------------------ -/
/- Claim C10                                                           -/
/- ------------------------------------------------------------------ -/

/-- Claim C10: for a letter-leading key name and a line-terminator-free
valid literal, a condition written with a single `=` compiles to exactly
the same result as the same condition written with `==` (the parsed single
`=` is rewritten to `==` before the comparator is looked up). -/
theorem single_eq_compiles_like_double_eq (k v : String) (names : List String)
    (h1 : letterIdent k = true) (h2 : isValidValue v = true) (h3 : ltFree v = true) :
    conditionsTree (.list [k ++ "=" ++ v]) names
      = conditionsTree (.list [k ++ "==" ++ v]) names := by
  have hne := validValue_head_ne_eq v h2
  have hval : isValidValue (String.mk (v.data.dropWhile (fun x => x = ' '))) = true := by
    have hv2 := validValue_dropSpaces v h2
    simpa [dropSpaces] using hv2
  have e1 : ("=" : String).data = ['='] := rfl
  have e2 : ("==" : String).data = ['=', '='] := rfl
  have hdL : (k ++ "=" ++ v).data = k.data ++ '=' :: v.data := by
    simp [string_data_append, e1]
  have hdR : (k ++ "==" ++ v).data = k.data ++ '=' :: '=' :: v.data := by
    simp [string_data_append, e2]
  have hrL : condRegex (k ++ "=" ++ v).data
      = some (k.data, ['='], v.data.dropWhile (fun c => c = ' ')) := by
    rw [hdL]
    exact condRegex_one_char k v '=' h1 (by decide) (by decide) (by decide) h3 hne
  have hrR : condRegex (k ++ "==" ++ v).data
      = some (k.data, ['=', '='], v.data.dropWhile (fun c => c = ' ')) := by
    rw [hdR]
    exact condRegex_two_char k v '=' h1 (by decide) (by decide) (by decide) h3
  rw [conditionsTree_single names (k ++ "=" ++ v),
      conditionsTree_single names (k ++ "==" ++ v),
      parsePush_parsed names "AND" emptyTree (k ++ "=" ++ v) k ['=']
        (v.data.dropWhile (fun c => c = ' ')) hrL,
      parsePush_parsed names "AND" emptyTree (k ++ "==" ++ v) k ['=', '=']
        (v.data.dropWhile (fun c => c = ' ')) hrR]
  have c1 : (String.mk ['='] ++ if String.mk ['='] = "=" then "=" else "") = "==" := by decide
  have c2 : (String.mk ['=', '='] ++ if String.mk ['=', '='] = "=" then "=" else "") = "==" := by
    decide
  rw [c1, c2]
  have hsym : ("==" : String) ∈ checkSymbols := by decide
  simp [hsym, hval]

/-- Witness for claim C10 at a concrete key and literal. -/
theorem single_eq_compiles_like_double_eq_witness :
    letterIdent "a" = true ∧ isValidValue "1" = true ∧ ltFree "1" = true ∧
    conditionsTree (.list ["a" ++ "=" ++ "1"]) ["a"]
      = conditionsTree (.list ["a" ++ "==" ++ "1"]) ["a"] :=
  ⟨by decide, by decide, by decide,
   single_eq_compiles_like_double_eq "a" "1" ["a"] (by decide) (by decide) (by decide)⟩

/- ------------------------------------------------------------------ -/
/- Claim C9                                                            -/
/- ------------------------------------------------------------------ -/

/-- Claim C9: the array-form insert stores the caller\x27s array reference
itself, not a copy: on success the new data collection is the old one with
the caller\x27s reference appended, no new array is allocated on the heap,
and a later mutation of the caller\x27s array through that reference is
visible as the last row of a subsequent read of the table. -/
theorem insert_array_form_aliases (keys : List Key) (tdata : List Nat)
    (heap : List (List JsVal)) (ref : Nat) (td2 : List Nat)
    (heap2 : List (List JsVal)) (v : List JsVal)
    (h : insertRef keys tdata heap ref = .ok (td2, heap2)) :
    td2 = tdata ++ [ref] ∧ heap2.length = heap.length ∧
    (rowsView td2 (heap2.set ref v)).getLast? = some v := by
  unfold insertRef at h
  split at h
  next hg => simp at h
  next call hg =>
    split at h
    next hlen => simp at h
    next hlen =>
      cases hc : insertCols (tdata.map fun r => (heap.get? r).getD []) keys 0 call with
      | error e => rw [hc] at h; simp [Except.map] at h
      | ok row =>
        rw [hc] at h
        simp only [Except.map, Except.ok.injEq, Prod.mk.injEq] at h
        obtain ⟨h1, h2⟩ := h
        subst h1
        subst h2
        have hlt : ref < heap.length := by
          rcases List.get?_eq_some.mp hg with ⟨hl, _⟩
          exact hl
        refine ⟨rfl, by simp, ?_⟩
        rw [List.set_set]
        simp only [rowsView, List.map_append, List.map_cons, List.map_nil]
        rw [List.getLast?_concat]
        rw [List.get?_eq_getElem?, List.getElem?_set_self (by simpa using hlt)]
        rfl

/-- Witness for claim C9: inserting the one-cell array at reference 0 into
a one-column table, then overwriting that array, changes the row the table
reports. -/
theorem insert_array_form_aliases_witness :
    ([0] : List Nat) = [] ++ [0] ∧
    ([[JsVal.str "x"]] : List (List JsVal)).length = [[JsVal.str "x"]].length ∧
    (rowsView [0] ([[JsVal.str "x"]].set 0 [JsVal.str "y"])).getLast?
      = some [JsVal.str "y"] :=
  insert_array_form_aliases [⟨"a", "text", 10, false, false, []⟩] [] [[JsVal.str "x"]]
    0 [0] [[JsVal.str "x"]] [JsVal.str "y"] rfl

end SeaFlow
